import Mathlib

/-!
Verification development for the koreafhr price-monitoring core.

The definitions below are a shallow embedding of the storage layer
(src/storage.py) and of the per-hotel classification and persistence loop
of the daily run (src/main.py, function run).  File contents are modelled
as explicit data (a list of parsed log entries, an association list for
the snapshot document); machine I/O failures are modelled with Option.
-/

namespace KoreaFHR

/-- One per-hotel record inside a log entry, as written by the run loop of
main.py (the hotels_snapshot records, lines 523-529) and read back by
storage.py through dict.get, hence the optional fields. -/
structure Hotel where
  code : String
  name : String
  price : Option Int
  earliest : Option String
  credit : Option Int
deriving DecidableEq

/-- One line of price_log.jsonl.  HotelStorage.append_log writes the keys
date, timestamp and hotels; readers access date and hotels through
dict.get, so both are optional here and timestamp is never read. -/
structure LogEntry where
  date : Option String
  timestamp : Option String
  hotels : List Hotel
deriving DecidableEq

/-- Result record built by HotelStorage.get_all_time_low
(storage.py lines 113-117): the candidate price, the date of the log entry
it came from, and that observation's earliest field. -/
structure LowResult where
  price : Int
  date : Option String
  earliest : Option String
deriving DecidableEq

/-- Python truthiness of the optional exclude_date string tested at
storage.py line 105: None and the empty string are falsy, every other
string is truthy. -/
def truthy : Option String → Bool
  | none => false
  | some s => s ≠ ""

/-- Inner scan of get_all_time_low over one entry's hotels list
(storage.py lines 108-118): the loop stops at the first observation whose
code matches, because of the break at line 118. -/
def findFirstMatch (hotel_code : String) (hotels : List Hotel) : Option Hotel :=
  hotels.find? fun h => h.code == hotel_code

/-- Contribution of one log entry to the minimum search of
get_all_time_low: none when the entry is skipped by the exclude_date test
(storage.py line 105), when no observation of the entry matches the code,
or when the first matching observation carries no price (lines 110-111). -/
def entry_candidate (hotel_code : String) (exclude_date : Option String) (log : LogEntry) :
    Option LowResult :=
  if truthy exclude_date ∧ log.date = exclude_date then none
  else match findFirstMatch hotel_code log.hotels with
    | none => none
    | some h => h.price.map fun p => ⟨p, log.date, h.earliest⟩

/-- Update of the running best at storage.py lines 112-117: the candidate
replaces the best exactly when best is still None or the candidate's price
is strictly smaller, so the first minimal candidate is kept on ties. -/
def better (best : Option LowResult) (c : LowResult) : Option LowResult :=
  match best with
  | none => some c
  | some b => if c.price < b.price then some c else some b

/-- Body of the outer loop of get_all_time_low (storage.py lines
103-118): the running best is updated with the entry's candidate, if
any. -/
def scan_step (hotel_code : String) (exclude_date : Option String)
    (best : Option LowResult) (log : LogEntry) : Option LowResult :=
  match entry_candidate hotel_code exclude_date log with
  | none => best
  | some c => better best c

/-- HotelStorage.get_all_time_low (storage.py lines 87-120), expressed
over the parsed log entries its load_logs call returns. -/
def get_all_time_low (logs : List LogEntry) (hotel_code : String)
    (exclude_date : Option String) : Option LowResult :=
  logs.foldl (scan_step hotel_code exclude_date) none

/-- HotelStorage.append_log (storage.py lines 41-57): appends exactly one
entry holding the current date, the current timestamp and the given
observations.  now_date stands for the strftime rendering of the current
day, which is never the empty string. -/
def append_log (logs : List LogEntry) (now_date now_ts : String) (hotels : List Hotel) :
    List LogEntry :=
  logs ++ [⟨some now_date, some now_ts, hotels⟩]

/-- Classification of one physical line of price_log.jsonl as load_logs
sees it: whitespace-only (skipped by the strip test at storage.py
line 76), a line json.loads rejects, or a line parsing to an entry. -/
inductive LogLine where
  | blank : LogLine
  | corrupt : LogLine
  | entry : LogEntry → LogLine
deriving DecidableEq

/-- Loop body of HotelStorage.load_logs (storage.py lines 72-80): lines
are consumed in order and parsed entries accumulated; a line json.loads
rejects raises, and the except branch returns the empty list, discarding
everything accumulated so far. -/
def load_logs_go : List LogLine → List LogEntry → List LogEntry
  | [], acc => acc
  | LogLine.blank :: rest, acc => load_logs_go rest acc
  | LogLine.corrupt :: _, _ => []
  | LogLine.entry e :: rest, acc => load_logs_go rest (acc ++ [e])

/-- Python slice logs[-days:] applied at storage.py line 83; slicing with
minus zero is the whole list. -/
def lastSlice (days : Option Nat) (logs : List LogEntry) : List LogEntry :=
  match days with
  | none => logs
  | some d => if d = 0 then logs else logs.drop (logs.length - d)

/-- HotelStorage.load_logs (storage.py lines 59-85).  The file argument is
none for a missing file or an IO failure while reading, both of which
yield the empty history. -/
def load_logs (file : Option (List LogLine)) (days : Option Nat) : List LogEntry :=
  match file with
  | none => []
  | some lines => lastSlice days (load_logs_go lines [])

/-- Snapshot entry of price_history.json as read back by the run loop
(main.py lines 505-506 and 540): only price, earliest and all_time_low are
ever read, each through dict.get, hence optional; the write-only fields
(name, updated, credit, credit_inferred) are omitted from the read
model. -/
structure SnapEntry where
  price : Option Int
  earliest : Option String
  all_time_low : Option Int
deriving DecidableEq

/-- The price_history.json document: a JSON object mapping hotel code to
entry, modelled as an association list with first-key lookup. -/
abbrev Snapshot := List (String × SnapEntry)

/-- Dictionary lookup prev_history.get(code) used throughout the run
loop. -/
def snapLookup (prev : Snapshot) (code : String) : Option SnapEntry :=
  (prev.find? fun kv => kv.1 == code).map Prod.snd

/-- old_price at main.py line 505: the previous snapshot's stored price
for the code, defaulting to the 999999 sentinel when the code or the
price field is absent. -/
def old_price (prev : Snapshot) (code : String) : Int :=
  ((snapLookup prev code).bind SnapEntry.price).getD 999999

/-- prev_low at main.py line 506: the previous snapshot's stored
all_time_low, defaulting to today's price when absent. -/
def prev_low (prev : Snapshot) (code : String) (price : Int) : Int :=
  ((snapLookup prev code).bind SnapEntry.all_time_low).getD price

/-- all_time_low recomputed at main.py line 507 as the minimum of today's
price and prev_low. -/
def new_all_time_low (prev : Snapshot) (code : String) (price : Int) : Int :=
  min price (prev_low prev code price)

/-- The five outcomes of the branch at main.py lines 544-582: the
price-drop branch splits into the record-low message and the plain drop
message; the remaining branches are rise, new and unchanged. -/
inductive Category where
  | RECORD_LOW : Category
  | DROP : Category
  | RISE : Category
  | NEW : Category
  | UNCHANGED : Category
deriving DecidableEq

/-- Per-hotel classification of main.py lines 503-582: today's price is
compared with old_price taken from the previous snapshot; inside the drop
branch the record-low flag compares the price with the recomputed
all_time_low (line 545); is_new at line 503 is membership of the code in
the previous snapshot. -/
def classify (prev : Snapshot) (code : String) (price : Int) : Category :=
  if price < old_price prev code then
    if price ≤ new_all_time_low prev code price then Category.RECORD_LOW else Category.DROP
  else if old_price prev code < price then Category.RISE
  else if snapLookup prev code = none then Category.NEW
  else Category.UNCHANGED

/-- Difference printed by the drop branch at main.py line 559: the stored
old price minus today's price. -/
def drop_delta (prev : Snapshot) (code : String) (price : Int) : Int :=
  old_price prev code - price

/-- Observable storage and delivery effects of one run, in program
order. -/
inductive StorageEffect where
  | loadHistory : StorageEffect
  | saveHistory : StorageEffect
  | appendLog : StorageEffect
  | sendReport : StorageEffect
deriving DecidableEq

/-- Persistent state touched by one run: the snapshot document and the
parsed log entries. -/
structure StoreState where
  history : Snapshot
  logs : List LogEntry
deriving DecidableEq

/-- Persistence tail of run (main.py lines 584-586): save_history is
called first (line 585) and append_log second (line 586); the returned
list records the order of the two storage effects. -/
def run_persist (s : StoreState) (new_hist : Snapshot) (now_date now_ts : String)
    (hotels : List Hotel) : StoreState × List StorageEffect :=
  let s1 : StoreState := ⟨new_hist, s.logs⟩
  let s2 : StoreState := ⟨s1.history, append_log s1.logs now_date now_ts hotels⟩
  (s2, [StorageEffect.saveHistory, StorageEffect.appendLog])

/-- State left behind when the process dies between the two writes of
run_persist: the snapshot overwrite has happened, the log append has
not. -/
def run_persist_mid (s : StoreState) (new_hist : Snapshot) : StoreState :=
  ⟨new_hist, s.logs⟩

/-- One listing collected by fetch_maxfhr (main.py lines 258-267), with
the code already normalized from the display name. -/
structure Listing where
  code : String
  name : String
  price : Int
  earliest : Option String
  credit : Option Int
  url : String
deriving DecidableEq

/-- Guarded append of fetch_maxfhr at main.py lines 257-268: a parsed
card is appended to the collected list only when no already-kept listing
carries the same normalized code. -/
def dedup_step (acc : List Listing) (it : Listing) : List Listing :=
  if acc.any (fun h => h.code == it.code) then acc else acc ++ [it]

/-- Accumulation of fetch_maxfhr over the stream of parsed cards
(main.py lines 256-269), starting from the empty collection. -/
def dedup_hotels (items : List Listing) : List Listing :=
  items.foldl dedup_step []

/-- Slice loop of main.py line 603: successive 4000-character slices of
the message.  Recursion is on the length of the remaining text. -/
def chunkAux (l : List Char) : List (List Char) :=
  if h : l = [] then [] else l.take 4000 :: chunkAux (l.drop 4000)
termination_by l.length
decreasing_by
  have hpos : 0 < l.length := List.length_pos.mpr h
  simp only [List.length_drop]
  omega

/-- Delivery split of main.py lines 601-617: a message longer than 4000
characters is sent in consecutive 4000-character slices, otherwise it is
sent whole in one message. -/
def split_for_delivery (payload : List Char) : List (List Char) :=
  if 4000 < payload.length then chunkAux payload else [payload]

/-- Candidate list the all-time-low query scans, in storage order: one
result per non-excluded log entry whose first matching observation carries
a price. -/
def candidates (hotel_code : String) (exclude_date : Option String) (logs : List LogEntry) :
    List LowResult :=
  logs.filterMap (entry_candidate hotel_code exclude_date)

/-- First minimum of a candidate list under strict less-than: the earliest
candidate whose price no later candidate strictly undercuts. -/
def firstStrictMin : List LowResult → Option LowResult
  | [] => none
  | c :: cs => match firstStrictMin cs with
    | none => some c
    | some m => if m.price < c.price then some m else some c

example :
    get_all_time_low
      [⟨some "d1", none, [⟨"x", "X", some 300, none, none⟩]⟩,
       ⟨some "d2", none, [⟨"x", "X", some 250, none, none⟩]⟩,
       ⟨some "d3", none, [⟨"x", "X", some 280, none, none⟩]⟩] "x" none
      = some ⟨250, some "d2", none⟩ := by decide

example :
    get_all_time_low
      [⟨some "d1", none, [⟨"x", "X", some 300, none, none⟩]⟩,
       ⟨some "d2", none, [⟨"x", "X", some 250, none, none⟩]⟩,
       ⟨some "d3", none, [⟨"x", "X", some 280, none, none⟩]⟩] "x" (some "d2")
      = some ⟨280, some "d3", none⟩ := by decide

example : classify [] "x" 100 = Category.RECORD_LOW := by decide

example : classify [("x", ⟨some 200, some "e", some 50⟩)] "x" 100 = Category.DROP := by decide

example : classify [("x", ⟨some 50, none, some 50⟩)] "x" 100 = Category.RISE := by decide

/-! Lemmas about the all-time-low scan. -/

theorem scan_step_of_none {hotel_code : String} {exclude_date : Option String}
    {log : LogEntry} (h : entry_candidate hotel_code exclude_date log = none)
    (best : Option LowResult) :
    scan_step hotel_code exclude_date best log = best := by
  simp [scan_step, h]

theorem scan_step_congr {hotel_code : String} {exclude_date : Option String}
    {e1 e2 : LogEntry}
    (h : entry_candidate hotel_code exclude_date e1 = entry_candidate hotel_code exclude_date e2)
    (best : Option LowResult) :
    scan_step hotel_code exclude_date best e1 = scan_step hotel_code exclude_date best e2 := by
  simp [scan_step, h]

theorem foldl_scan_filterMap (hotel_code : String) (exclude_date : Option String) :
    ∀ (logs : List LogEntry) (best : Option LowResult),
      logs.foldl (scan_step hotel_code exclude_date) best
        = (logs.filterMap (entry_candidate hotel_code exclude_date)).foldl better best := by
  intro logs
  induction logs with
  | nil => intro best; rfl
  | cons e t ih =>
    intro best
    rcases hc : entry_candidate hotel_code exclude_date e with _ | c
    · simp [List.foldl_cons, List.filterMap_cons, hc, scan_step, ih]
    · simp [List.foldl_cons, List.filterMap_cons, hc, scan_step, ih]

theorem foldl_better_some :
    ∀ (cs : List LowResult) (b : LowResult),
      cs.foldl better (some b)
        = match firstStrictMin cs with
          | none => some b
          | some m => if m.price < b.price then some m else some b := by
  intro cs
  induction cs with
  | nil => intro b; simp [firstStrictMin]
  | cons c cs ih =>
    intro b
    have hb : better (some b) c = some (if c.price < b.price then c else b) := by
      by_cases h : c.price < b.price <;> simp [better, h]
    rw [List.foldl_cons, hb, ih]
    simp only [firstStrictMin]
    rcases hm : firstStrictMin cs with _ | m
    · by_cases h : c.price < b.price <;> simp [h]
    · by_cases h1 : c.price < b.price <;> by_cases h2 : m.price < c.price <;>
        simp only [h1, h2, if_true, if_false, ite_true, ite_false] <;>
        split_ifs <;> first | rfl | omega

theorem get_eq_firstStrictMin (logs : List LogEntry) (hotel_code : String)
    (exclude_date : Option String) :
    get_all_time_low logs hotel_code exclude_date
      = firstStrictMin (candidates hotel_code exclude_date logs) := by
  unfold get_all_time_low candidates
  rw [foldl_scan_filterMap]
  rcases h : logs.filterMap (entry_candidate hotel_code exclude_date) with _ | ⟨c, cs⟩
  · rfl
  · rw [List.foldl_cons, show better none c = some c from rfl, foldl_better_some]
    simp only [firstStrictMin]

theorem firstStrictMin_eq_none_iff (cs : List LowResult) :
    firstStrictMin cs = none ↔ cs = [] := by
  cases cs with
  | nil => simp [firstStrictMin]
  | cons c t =>
    simp only [firstStrictMin]
    cases h : firstStrictMin t with
    | none => simp
    | some m =>
      change (if m.price < c.price then some m else some c) = none ↔ c :: t = []
      split_ifs <;> simp

theorem firstStrictMin_spec :
    ∀ (cs : List LowResult) (r : LowResult), firstStrictMin cs = some r →
      r ∈ cs ∧ (∀ x ∈ cs, r.price ≤ x.price)
        ∧ ∃ i : Nat, cs[i]? = some r
            ∧ ∀ (j : Nat) (x : LowResult), j < i → cs[j]? = some x → r.price < x.price := by
  intro cs
  induction cs with
  | nil => intro r h; simp [firstStrictMin] at h
  | cons c t ih =>
    intro r h
    rcases hm : firstStrictMin t with _ | m
    · have hcr : c = r := by
        rw [show firstStrictMin (c :: t) = some c from by simp [firstStrictMin, hm]] at h
        exact Option.some.inj h
      subst hcr
      have ht : t = [] := (firstStrictMin_eq_none_iff t).mp hm
      subst ht
      refine ⟨by simp, ?_, 0, by simp, ?_⟩
      · intro x hx
        have hxc : x = c := by simpa using hx
        subst hxc
        exact le_refl _
      · intro j x hj hx
        omega
    · by_cases hlt : m.price < c.price
      · have hmr : m = r := by
          rw [show firstStrictMin (c :: t) = some m from by simp [firstStrictMin, hm, hlt]] at h
          exact Option.some.inj h
        subst hmr
        obtain ⟨hmem, hle, i, hi, hfirst⟩ := ih m hm
        refine ⟨List.mem_cons_of_mem _ hmem, ?_, i + 1, by simpa using hi, ?_⟩
        · intro x hx
          rcases List.mem_cons.mp hx with rfl | hx'
          · exact le_of_lt hlt
          · exact hle x hx'
        · intro j x hj hx
          cases j with
          | zero =>
            have hxc : c = x := by simpa using hx
            subst hxc
            exact hlt
          | succ k =>
            have hk : k < i := by omega
            have hx' : t[k]? = some x := by simpa using hx
            exact hfirst k x hk hx'
      · have hcr : c = r := by
          rw [show firstStrictMin (c :: t) = some c from by simp [firstStrictMin, hm, hlt]] at h
          exact Option.some.inj h
        subst hcr
        obtain ⟨hmem, hle, _⟩ := ih m hm
        refine ⟨by simp, ?_, 0, by simp, ?_⟩
        · intro x hx
          rcases List.mem_cons.mp hx with rfl | hx'
          · exact le_refl _
          · exact le_trans (not_lt.mp hlt) (hle x hx')
        · intro j x hj hx
          omega

theorem candidates_filter_excluded (hotel_code : String) (s : String) (hs : s ≠ "") :
    ∀ logs : List LogEntry,
      candidates hotel_code (some s) (logs.filter fun e => e.date != some s)
        = candidates hotel_code (some s) logs := by
  intro logs
  induction logs with
  | nil => rfl
  | cons e t ih =>
    by_cases hd : e.date = some s
    · have hp : (e.date != some s) = false := by simp [hd]
      have hskip : entry_candidate hotel_code (some s) e = none := by
        simp [entry_candidate, truthy, hd, hs]
      simp only [candidates] at ih ⊢
      rw [List.filter_cons, hp]
      simp only [Bool.false_eq_true, if_false, List.filterMap_cons, hskip]
      exact ih
    · have hp : (e.date != some s) = true := by simp [hd]
      simp only [candidates] at ih ⊢
      rw [List.filter_cons, hp]
      simp only [if_true]
      rcases hc : entry_candidate hotel_code (some s) e with _ | c <;>
        simp [List.filterMap_cons, hc, ih]

theorem entry_candidate_eq_none_iff (hotel_code : String) (exclude_date : Option String)
    (e : LogEntry) (hwf : ∀ h ∈ e.hotels, h.price ≠ none) :
    entry_candidate hotel_code exclude_date e = none
      ↔ (truthy exclude_date = true ∧ e.date = exclude_date)
        ∨ ∀ h ∈ e.hotels, h.code ≠ hotel_code := by
  unfold entry_candidate
  by_cases hskip : truthy exclude_date = true ∧ e.date = exclude_date
  · simp [hskip]
  · rw [if_neg hskip]
    rcases hf : findFirstMatch hotel_code e.hotels with _ | ht
    · simp only [hf]
      constructor
      · intro _
        right
        intro h hmem hcode
        have hne := List.find?_eq_none.mp hf h hmem
        exact hne (by simp [hcode])
      · intro _
        trivial
    · simp only [hf]
      have hmem : ht ∈ e.hotels := List.mem_of_find?_eq_some hf
      have hcode : ht.code = hotel_code := by
        have := List.find?_some hf
        simpa using this
      constructor
      · intro hmap
        exfalso
        rcases hp : ht.price with _ | p
        · exact hwf ht hmem hp
        · rw [hp] at hmap
          simp at hmap
      · intro hor
        exfalso
        rcases hor with hsk | hall
        · exact hskip hsk
        · exact hall ht hmem hcode

/-- C4: the all-time-low query skips every entry dated exclude_date, scans
the remaining entries in storage order keeping the minimum price under
strict less-than (first minimal occurrence wins ties), returns None exactly
when no non-excluded entry contains an observation for the code, and on
the concrete log prices 300, 250, 280 returns price 250 at d2, and price
280 at d3 when d2 is excluded.  Observations are assumed to carry prices
(the data model's observations always do) and the exclude_date, when
given, is a calendar-date string, hence nonempty. -/
theorem c4_all_time_low_query (logs : List LogEntry) (hotel_code : String)
    (excl : Option String)
    (hwf : ∀ e ∈ logs, ∀ h ∈ e.hotels, h.price ≠ none)
    (hx : excl ≠ some "") :
    get_all_time_low logs hotel_code excl = firstStrictMin (candidates hotel_code excl logs)
    ∧ (∀ s : String, excl = some s →
        get_all_time_low logs hotel_code excl
          = get_all_time_low (logs.filter fun e => e.date != some s) hotel_code excl)
    ∧ (get_all_time_low logs hotel_code excl = none
        ↔ ∀ e ∈ logs,
            (truthy excl = true ∧ e.date = excl) ∨ ∀ h ∈ e.hotels, h.code ≠ hotel_code)
    ∧ (∀ r, get_all_time_low logs hotel_code excl = some r →
        r ∈ candidates hotel_code excl logs
        ∧ (∀ x ∈ candidates hotel_code excl logs, r.price ≤ x.price)
        ∧ ∃ i : Nat, (candidates hotel_code excl logs)[i]? = some r
            ∧ ∀ (j : Nat) (x : LowResult), j < i →
                (candidates hotel_code excl logs)[j]? = some x → r.price < x.price)
    ∧ get_all_time_low
        [⟨some "d1", none, [⟨"x", "X", some 300, none, none⟩]⟩,
         ⟨some "d2", none, [⟨"x", "X", some 250, none, none⟩]⟩,
         ⟨some "d3", none, [⟨"x", "X", some 280, none, none⟩]⟩] "x" none
        = some ⟨250, some "d2", none⟩
    ∧ get_all_time_low
        [⟨some "d1", none, [⟨"x", "X", some 300, none, none⟩]⟩,
         ⟨some "d2", none, [⟨"x", "X", some 250, none, none⟩]⟩,
         ⟨some "d3", none, [⟨"x", "X", some 280, none, none⟩]⟩] "x" (some "d2")
        = some ⟨280, some "d3", none⟩ := by
  refine ⟨get_eq_firstStrictMin logs hotel_code excl, ?_, ?_, ?_, by decide, by decide⟩
  · intro s hsx
    subst hsx
    have hs : s ≠ "" := fun h => hx (by rw [h])
    rw [get_eq_firstStrictMin, get_eq_firstStrictMin, candidates_filter_excluded _ s hs]
  · rw [get_eq_firstStrictMin, firstStrictMin_eq_none_iff]
    unfold candidates
    rw [List.filterMap_eq_nil_iff]
    constructor
    · intro h e he
      exact (entry_candidate_eq_none_iff _ _ e (hwf e he)).mp (h e he)
    · intro h e he
      exact (entry_candidate_eq_none_iff _ _ e (hwf e he)).mpr (h e he)
  · intro r hr
    rw [get_eq_firstStrictMin] at hr
    exact firstStrictMin_spec _ r hr

/-- Witness for C4 at the concrete P3 log. -/
theorem c4_witness :
    get_all_time_low
      [⟨some "d1", none, [⟨"x", "X", some 300, none, none⟩]⟩,
       ⟨some "d2", none, [⟨"x", "X", some 250, none, none⟩]⟩,
       ⟨some "d3", none, [⟨"x", "X", some 280, none, none⟩]⟩] "x" (some "d2")
      = some ⟨280, some "d3", none⟩ :=
  (c4_all_time_low_query
    [⟨some "d1", none, [⟨"x", "X", some 300, none, none⟩]⟩,
     ⟨some "d2", none, [⟨"x", "X", some 250, none, none⟩]⟩,
     ⟨some "d3", none, [⟨"x", "X", some 280, none, none⟩]⟩]
    "x" (some "d2") (by decide) (by decide)).2.2.2.2.2

/-- C5: appending a log entry dated D never changes the all-time-low
query that excludes D: the appended entry is skipped by the exclude test,
because the date written by append_log is a strftime rendering and thus
never the empty string. -/
theorem c5_append_today_invariant (logs : List LogEntry) (hotel_code : String)
    (now_date now_ts : String) (hotels : List Hotel) (hD : now_date ≠ "") :
    get_all_time_low (append_log logs now_date now_ts hotels) hotel_code (some now_date)
      = get_all_time_low logs hotel_code (some now_date) := by
  unfold append_log get_all_time_low
  rw [List.foldl_append]
  simp only [List.foldl_cons, List.foldl_nil]
  apply scan_step_of_none
  simp [entry_candidate, truthy, hD]

/-- Witness for C5 at a concrete prior log and appended entry. -/
theorem c5_witness :
    get_all_time_low
      (append_log [⟨some "d1", none, [⟨"x", "X", some 300, none, none⟩]⟩] "d2" "ts"
        [⟨"x", "X", some 100, none, none⟩]) "x" (some "d2")
      = get_all_time_low [⟨some "d1", none, [⟨"x", "X", some 300, none, none⟩]⟩] "x"
        (some "d2") :=
  c5_append_today_invariant [⟨some "d1", none, [⟨"x", "X", some 300, none, none⟩]⟩] "x"
    "d2" "ts" [⟨"x", "X", some 100, none, none⟩] (by decide)

/-! Lemmas about entries that contribute nothing to the scan, and about
the first-match behaviour of the inner loop. -/

theorem foldl_scan_of_all_none (hotel_code : String) (exclude_date : Option String) :
    ∀ (logs : List LogEntry) (best : Option LowResult),
      (∀ e ∈ logs, entry_candidate hotel_code exclude_date e = none) →
      logs.foldl (scan_step hotel_code exclude_date) best = best := by
  intro logs
  induction logs with
  | nil => intro best _; rfl
  | cons e t ih =>
    intro best h
    rw [List.foldl_cons, scan_step_of_none (h e (by simp))]
    exact ih best fun x hx => h x (by simp [hx])

theorem findFirstMatch_first (hotel_code : String) (obs : Hotel)
    (hobs : obs.code = hotel_code) :
    ∀ (pre post : List Hotel), (∀ h ∈ pre, h.code ≠ hotel_code) →
      findFirstMatch hotel_code (pre ++ obs :: post) = some obs := by
  intro pre
  induction pre with
  | nil =>
    intro post _
    unfold findFirstMatch
    rw [List.nil_append]
    exact List.find?_cons_of_pos _ (by simp [hobs])
  | cons a t ih =>
    intro post hpre
    unfold findFirstMatch
    rw [List.cons_append,
      List.find?_cons_of_neg _ (by simp [hpre a (List.mem_cons_self a t)])]
    exact ih post fun x hx => hpre x (by simp [hx])

/-- C10: an observation whose price field is absent never contributes to
the all-time-low: an entry whose first matching observation carries no
price can be removed without changing the query, and a hotel all of whose
observations lack a price yields None. -/
theorem c10_null_price_ignored :
    (∀ (logs1 logs2 : List LogEntry) (e : LogEntry) (hotel_code : String)
        (excl : Option String) (h : Hotel),
        findFirstMatch hotel_code e.hotels = some h → h.price = none →
        get_all_time_low (logs1 ++ e :: logs2) hotel_code excl
          = get_all_time_low (logs1 ++ logs2) hotel_code excl)
    ∧ (∀ (logs : List LogEntry) (hotel_code : String) (excl : Option String),
        (∀ e ∈ logs, ∀ h ∈ e.hotels, h.code = hotel_code → h.price = none) →
        get_all_time_low logs hotel_code excl = none) := by
  constructor
  · intro logs1 logs2 e hotel_code excl h hf hp
    have hcand : entry_candidate hotel_code excl e = none := by
      unfold entry_candidate
      split
      · rfl
      · simp [hf, hp]
    unfold get_all_time_low
    rw [List.foldl_append, List.foldl_append, List.foldl_cons, scan_step_of_none hcand]
  · intro logs hotel_code excl hall
    unfold get_all_time_low
    apply foldl_scan_of_all_none
    intro e he
    unfold entry_candidate
    split
    · rfl
    · rcases hf : findFirstMatch hotel_code e.hotels with _ | ht
      · rfl
      · have hmem : ht ∈ e.hotels := List.mem_of_find?_eq_some hf
        have hcode : ht.code = hotel_code := by simpa using List.find?_some hf
        simp [hall e he ht hmem hcode]

/-- Witness for C10: a priceless middle entry is invisible to the query,
and a hotel observed only without prices yields None. -/
theorem c10_witness :
    get_all_time_low
      ([⟨some "d1", none, [⟨"x", "X", some 300, none, none⟩]⟩]
        ++ ⟨some "d2", none, [⟨"x", "X", none, none, none⟩]⟩
          :: [⟨some "d3", none, [⟨"x", "X", some 280, none, none⟩]⟩]) "x" none
      = get_all_time_low
        ([⟨some "d1", none, [⟨"x", "X", some 300, none, none⟩]⟩]
          ++ [⟨some "d3", none, [⟨"x", "X", some 280, none, none⟩]⟩]) "x" none
    ∧ get_all_time_low [⟨some "d1", none, [⟨"x", "X", none, none, none⟩]⟩] "x" none
        = none :=
  ⟨c10_null_price_ignored.1 [⟨some "d1", none, [⟨"x", "X", some 300, none, none⟩]⟩]
      [⟨some "d3", none, [⟨"x", "X", some 280, none, none⟩]⟩]
      ⟨some "d2", none, [⟨"x", "X", none, none, none⟩]⟩ "x" none
      ⟨"x", "X", none, none, none⟩ (by decide) (by decide),
   c10_null_price_ignored.2 [⟨some "d1", none, [⟨"x", "X", none, none, none⟩]⟩] "x" none
      (by decide)⟩

/-! Lemmas about the scraper's first-occurrence deduplication. -/

theorem dedup_find?_invariant (c : String) :
    ∀ (items acc : List Listing),
      ((items.foldl dedup_step acc).find? fun h => h.code == c)
        = ((acc ++ items).find? fun h => h.code == c) := by
  intro items
  induction items with
  | nil => intro acc; simp
  | cons it t ih =>
    intro acc
    rw [List.foldl_cons, ih (dedup_step acc it)]
    have hstep : ((dedup_step acc it).find? fun h => h.code == c)
        = ((acc ++ [it]).find? fun h => h.code == c) := by
      unfold dedup_step
      split
      case isTrue hany =>
        rw [List.find?_append]
        by_cases hc : it.code = c
        · obtain ⟨a, ha, hac⟩ := List.any_eq_true.mp hany
          have hac' : a.code = it.code := by simpa using hac
          have hfind : (acc.find? fun h => h.code == c).isSome := by
            rw [List.find?_isSome]
            exact ⟨a, ha, by simp [hac', hc]⟩
          rcases hfa : acc.find? (fun h => h.code == c) with _ | fa
          · rw [hfa] at hfind
            simp at hfind
          · rw [hfa]
            rfl
        · have hone : ([it].find? fun h => h.code == c) = none := by
            rw [List.find?_cons_of_neg _ (by simp [hc])]
            rfl
          rw [hone]
          cases acc.find? (fun h => h.code == c) <;> rfl
      case isFalse => rfl
    rw [show acc ++ it :: t = (acc ++ [it]) ++ t by simp,
      List.find?_append, List.find?_append, hstep]

theorem dedup_codes_nodup :
    ∀ (items acc : List Listing), (acc.map Listing.code).Nodup →
      ((items.foldl dedup_step acc).map Listing.code).Nodup := by
  intro items
  induction items with
  | nil => intro acc h; exact h
  | cons it t ih =>
    intro acc h
    rw [List.foldl_cons]
    apply ih
    unfold dedup_step
    split
    case isTrue => exact h
    case isFalse hany =>
      rw [List.map_append, List.nodup_append]
      refine ⟨h, by simp, ?_⟩
      intro a ha hb
      have hb' : a = it.code := by simpa using hb
      subst hb'
      rw [List.mem_map] at ha
      obtain ⟨x, hx, hxc⟩ := ha
      exact hany (List.any_eq_true.mpr ⟨x, hx, by simp [hxc]⟩)

/-- C9: the scraper keeps only the first listing per normalized code (so
the kept codes are pairwise distinct and the first listing with a given
code is unchanged), and the all-time-low query reads only the first
observation of an entry that matches the code, ignoring any later
duplicates in the same entry. -/
theorem c9_dedup_first_wins :
    (∀ (items : List Listing) (c : String),
        ((dedup_hotels items).find? fun h => h.code == c)
          = (items.find? fun h => h.code == c)
        ∧ ((dedup_hotels items).map Listing.code).Nodup)
    ∧ (∀ (logs1 logs2 : List LogEntry) (d ts : Option String) (pre post : List Hotel)
        (obs : Hotel) (hotel_code : String) (excl : Option String),
        (∀ h ∈ pre, h.code ≠ hotel_code) → obs.code = hotel_code →
        get_all_time_low (logs1 ++ ⟨d, ts, pre ++ obs :: post⟩ :: logs2) hotel_code excl
          = get_all_time_low (logs1 ++ ⟨d, ts, pre ++ [obs]⟩ :: logs2) hotel_code excl) := by
  constructor
  · intro items c
    constructor
    · have h := dedup_find?_invariant c items []
      simpa [dedup_hotels] using h
    · exact dedup_codes_nodup items [] (by simp)
  · intro logs1 logs2 d ts pre post obs hotel_code excl hpre hobs
    unfold get_all_time_low
    rw [List.foldl_append, List.foldl_append, List.foldl_cons, List.foldl_cons]
    have hcand : entry_candidate hotel_code excl ⟨d, ts, pre ++ obs :: post⟩
        = entry_candidate hotel_code excl ⟨d, ts, pre ++ [obs]⟩ := by
      unfold entry_candidate
      split
      · rfl
      · rw [show (⟨d, ts, pre ++ obs :: post⟩ : LogEntry).hotels = pre ++ obs :: post from rfl,
          show (⟨d, ts, pre ++ [obs]⟩ : LogEntry).hotels = pre ++ [obs] from rfl,
          findFirstMatch_first hotel_code obs hobs pre post hpre,
          findFirstMatch_first hotel_code obs hobs pre [] hpre]
    rw [scan_step_congr hcand]

/-- Witness for C9 at a concrete listing stream and a concrete entry with
an in-entry duplicate. -/
theorem c9_witness :
    ((dedup_hotels [⟨"x", "X", 300, none, none, "u1"⟩, ⟨"x", "X2", 250, none, none, "u2"⟩,
        ⟨"y", "Y", 400, none, none, "u3"⟩]).find? fun h => h.code == "x")
      = ([⟨"x", "X", 300, none, none, "u1"⟩, ⟨"x", "X2", 250, none, none, "u2"⟩,
          ⟨"y", "Y", 400, none, none, "u3"⟩].find? fun h => h.code == "x")
    ∧ get_all_time_low
        ([] ++ ⟨some "d1", none,
            [⟨"z", "Z", some 500, none, none⟩] ++ ⟨"x", "X", some 300, none, none⟩
              :: [⟨"x", "X", some 250, none, none⟩]⟩ :: []) "x" none
      = get_all_time_low
        ([] ++ ⟨some "d1", none,
            [⟨"z", "Z", some 500, none, none⟩] ++ [⟨"x", "X", some 300, none, none⟩]⟩ :: [])
        "x" none :=
  ⟨(c9_dedup_first_wins.1 [⟨"x", "X", 300, none, none, "u1"⟩,
      ⟨"x", "X2", 250, none, none, "u2"⟩, ⟨"y", "Y", 400, none, none, "u3"⟩] "x").1,
   c9_dedup_first_wins.2 [] [] (some "d1") none [⟨"z", "Z", some 500, none, none⟩]
      [⟨"x", "X", some 250, none, none⟩] ⟨"x", "X", some 300, none, none⟩ "x" none
      (by decide) (by decide)⟩

/-! The load path of the log file. -/

/-- Projection of a parsed line to its entry, used to state what load_logs
returns on a corruption-free file. -/
def line_entry : LogLine → Option LogEntry
  | LogLine.entry e => some e
  | _ => none

theorem load_logs_go_corrupt :
    ∀ (lines : List LogLine) (acc : List LogEntry), LogLine.corrupt ∈ lines →
      load_logs_go lines acc = [] := by
  intro lines
  induction lines with
  | nil => intro acc h; simp at h
  | cons l t ih =>
    intro acc h
    cases l with
    | blank => exact ih acc (by simpa using h)
    | corrupt => rfl
    | entry e => exact ih (acc ++ [e]) (by simpa using h)

theorem load_logs_go_clean :
    ∀ (lines : List LogLine) (acc : List LogEntry), LogLine.corrupt ∉ lines →
      load_logs_go lines acc = acc ++ lines.filterMap line_entry := by
  intro lines
  induction lines with
  | nil => intro acc _; simp [load_logs_go]
  | cons l t ih =>
    intro acc h
    cases l with
    | blank =>
      rw [show load_logs_go (LogLine.blank :: t) acc = load_logs_go t acc from rfl,
        ih acc fun ht => h (by simp [ht])]
      simp [line_entry, List.filterMap_cons]
    | corrupt => exact absurd (List.mem_cons_self _ _) h
    | entry e =>
      rw [show load_logs_go (LogLine.entry e :: t) acc = load_logs_go t (acc ++ [e]) from rfl,
        ih (acc ++ [e]) fun ht => h (by simp [ht])]
      simp [line_entry, List.filterMap_cons]

/-- Counterexample to C7: a log whose first line parses and whose trailing
line does not makes load_logs return the empty list, not the parsed
prefix. -/
theorem c7_counterexample :
    load_logs (some [LogLine.entry ⟨some "2026-01-01", none, []⟩, LogLine.corrupt]) none = []
    ∧ load_logs (some [LogLine.entry ⟨some "2026-01-01", none, []⟩]) none
        = [⟨some "2026-01-01", none, []⟩]
    ∧ ([] : List LogEntry) ≠ [⟨some "2026-01-01", none, []⟩] := by decide

/-- C7 amended: load_logs does not skip unparseable lines: any such line
makes the whole read return the empty history, discarding the parsed
prefix; a read failure likewise yields the empty history rather than
propagating, and only a file with no unparseable line returns its parsed
entries in order. -/
theorem c7_load_logs_all_or_nothing (lines : List LogLine) :
    (LogLine.corrupt ∈ lines → load_logs (some lines) none = [])
    ∧ load_logs none none = []
    ∧ (LogLine.corrupt ∉ lines →
        load_logs (some lines) none = lines.filterMap line_entry) := by
  refine ⟨?_, rfl, ?_⟩
  · intro h
    show lastSlice none (load_logs_go lines []) = []
    rw [load_logs_go_corrupt lines [] h]
    rfl
  · intro h
    show lastSlice none (load_logs_go lines []) = _
    rw [load_logs_go_clean lines [] h]
    simp [lastSlice]

/-- Witness for C7's amended statement on a concrete corruption-free
file. -/
theorem c7_witness :
    load_logs (some [LogLine.blank, LogLine.entry ⟨some "d1", none, []⟩]) none
      = [⟨some "d1", none, []⟩] :=
  (c7_load_logs_all_or_nothing [LogLine.blank, LogLine.entry ⟨some "d1", none, []⟩]).2.2
    (by decide)

/-! The delivery chunking. -/

theorem chunkAux_nil : chunkAux [] = [] := by
  rw [chunkAux.eq_def]
  rfl

theorem chunkAux_join_and_bound :
    ∀ (n : Nat) (l : List Char), l.length ≤ n →
      (chunkAux l).flatten = l ∧ ∀ c ∈ chunkAux l, c.length ≤ 4000 := by
  intro n
  induction n with
  | zero =>
    intro l hl
    have h0 : l = [] := List.length_eq_zero.mp (Nat.le_zero.mp hl)
    subst h0
    rw [chunkAux_nil]
    simp
  | succ n ih =>
    intro l hl
    by_cases h : l = []
    · subst h
      rw [chunkAux_nil]
      simp
    · have hpos : 0 < l.length := List.length_pos.mpr h
      have hd : (l.drop 4000).length ≤ n := by
        rw [List.length_drop]
        omega
      obtain ⟨hj, hb⟩ := ih (l.drop 4000) hd
      rw [chunkAux.eq_def, dif_neg h]
      constructor
      · rw [List.flatten_cons, hj, List.take_append_drop]
      · intro c hc
        rcases List.mem_cons.mp hc with rfl | hc'
        · rw [List.length_take]
          exact min_le_left _ _
        · exact hb c hc'

theorem chunkAux_count :
    ∀ (n : Nat) (l : List Char), l.length ≤ n → l ≠ [] →
      (chunkAux l).length = (l.length - 1) / 4000 + 1 := by
  intro n
  induction n with
  | zero =>
    intro l hl h
    exact absurd (List.length_eq_zero.mp (Nat.le_zero.mp hl)) h
  | succ n ih =>
    intro l hl h
    have hpos : 0 < l.length := List.length_pos.mpr h
    rw [chunkAux.eq_def, dif_neg h]
    by_cases hd : l.drop 4000 = []
    · have hlen : l.length ≤ 4000 := by
        have := List.drop_eq_nil_iff.mp hd
        omega
      rw [hd, chunkAux_nil]
      simp only [List.length_cons, List.length_nil]
      rw [Nat.div_eq_of_lt (by omega)]
    · have hlen : 4000 < l.length := by
        by_contra hle
        exact hd (List.drop_eq_nil_iff.mpr (by omega))
      have hdl : (l.drop 4000).length ≤ n := by
        rw [List.length_drop]
        omega
      rw [List.length_cons, ih (l.drop 4000) hdl hd, List.length_drop]
      have h1 : (l.length - 1) / 4000 = (l.length - 1 - 4000) / 4000 + 1 :=
        Nat.div_eq_sub_div (by omega) (by omega)
      have h2 : l.length - 1 - 4000 = l.length - 4000 - 1 := by omega
      omega

/-- C8: splitting the report for delivery yields chunks of length at most
4000 whose in-order concatenation is the original payload, and a
9000-character payload is sent in exactly 3 chunks. -/
theorem c8_chunking :
    (∀ payload : List Char,
        (∀ c ∈ split_for_delivery payload, c.length ≤ 4000)
        ∧ (split_for_delivery payload).flatten = payload)
    ∧ ∀ payload : List Char, payload.length = 9000 →
        (split_for_delivery payload).length = 3 := by
  constructor
  · intro p
    unfold split_for_delivery
    split
    case isTrue h =>
      obtain ⟨hj, hb⟩ := chunkAux_join_and_bound p.length p le_rfl
      exact ⟨hb, hj⟩
    case isFalse h =>
      constructor
      · intro c hc
        have hcp : c = p := by simpa using hc
        subst hcp
        omega
      · simp
  · intro p hp
    have hne : p ≠ [] := by
      intro h
      rw [h] at hp
      simp at hp
    unfold split_for_delivery
    rw [if_pos (by omega), chunkAux_count p.length p le_rfl hne, hp]

/-- Witness for C8 at a concrete 9000-character payload. -/
theorem c8_witness :
    (split_for_delivery (List.replicate 9000 'a')).length = 3 :=
  c8_chunking.2 (List.replicate 9000 'a') (List.length_replicate 9000 'a')

/-! The per-hotel classifier. -/

/-- Counterexample to C1: with the same today's observation (code x,
price 100) and any fixed log history, two different previous snapshots
yield different categories (DROP versus RISE), so the classification is
not a function of today's price and the log alone. -/
theorem c1_counterexample :
    classify [("x", ⟨some 200, none, some 50⟩)] "x" 100 = Category.DROP
    ∧ classify [("x", ⟨some 50, none, some 50⟩)] "x" 100 = Category.RISE
    ∧ Category.DROP ≠ Category.RISE := by decide

/-- C1 amended: the classification (and the printed drop delta) is a
function of today's price and the previous snapshot's entry for the code
only; the log history is never consulted. -/
theorem c1_classifier_snapshot_function (prev1 prev2 : Snapshot) (code : String)
    (price : Int) (h : snapLookup prev1 code = snapLookup prev2 code) :
    classify prev1 code price = classify prev2 code price
    ∧ drop_delta prev1 code price = drop_delta prev2 code price := by
  simp [classify, drop_delta, old_price, prev_low, new_all_time_low, h]

/-- Witness for C1's amended statement on two concrete snapshots agreeing
at the code. -/
theorem c1_witness :
    classify [("x", ⟨some 300, none, some 250⟩)] "x" 275
      = classify [("x", ⟨some 300, none, some 250⟩), ("y", ⟨some 1, none, some 1⟩)] "x" 275 :=
  (c1_classifier_snapshot_function [("x", ⟨some 300, none, some 250⟩)]
    [("x", ⟨some 300, none, some 250⟩), ("y", ⟨some 1, none, some 1⟩)] "x" 275 (by decide)).1

/-- Counterexample to C2: with an empty log (the all-time-low query
returns None) and an empty previous snapshot, today's price 100 is
classified RECORD_LOW, not NEW. -/
theorem c2_counterexample :
    get_all_time_low [] "x" (some "2026-02-16") = none
    ∧ classify [] "x" 100 = Category.RECORD_LOW
    ∧ Category.RECORD_LOW ≠ Category.NEW := by decide

/-- C2 amended: classification ignores the log; for a code absent from the
previous snapshot, old_price defaults to the 999999 sentinel, so any price
below 999999 lands in the drop branch as RECORD_LOW, the dedicated NEW
branch is reachable only at price exactly 999999, and a larger price
yields RISE. -/
theorem c2_absent_code_classification (prev : Snapshot) (code : String) (price : Int)
    (h : snapLookup prev code = none) :
    (price < 999999 → classify prev code price = Category.RECORD_LOW)
    ∧ (price = 999999 → classify prev code price = Category.NEW)
    ∧ (999999 < price → classify prev code price = Category.RISE) := by
  have hop : old_price prev code = 999999 := by simp [old_price, h]
  have hatl : new_all_time_low prev code price = price := by
    simp [new_all_time_low, prev_low, h]
  refine ⟨?_, ?_, ?_⟩ <;> intro hp
  · unfold classify
    rw [hop, hatl, if_pos hp, if_pos (le_refl price)]
  · unfold classify
    subst hp
    rw [hop, if_neg (by omega), if_neg (by omega), if_pos h]
  · unfold classify
    rw [hop, if_neg (by omega), if_pos hp]

/-- Witness for C2's amended statement at a concrete snapshot without the
code. -/
theorem c2_witness :
    classify [("y", ⟨some 1, none, some 1⟩)] "x" 100 = Category.RECORD_LOW :=
  (c2_absent_code_classification [("y", ⟨some 1, none, some 1⟩)] "x" 100 (by decide)).1
    (by decide)

/-- Counterexample to C3: the log's historical low for x excluding today
is 250; today's price 250 equals it, yet the classifier (which compares
against the snapshot, here stale at 300) yields RECORD_LOW, not
UNCHANGED. -/
theorem c3_counterexample :
    get_all_time_low [⟨some "2026-01-10", none, [⟨"x", "X", some 250, none, none⟩]⟩] "x"
        (some "2026-02-01")
      = some ⟨250, some "2026-01-10", none⟩
    ∧ classify [("x", ⟨some 300, none, some 300⟩)] "x" 250 = Category.RECORD_LOW
    ∧ Category.RECORD_LOW ≠ Category.UNCHANGED := by decide

/-- C3 amended: the boundary is against the snapshot, not the log: when
the previous snapshot's stored price and stored all_time_low both equal L,
today's price L yields UNCHANGED, and price L - 1 yields RECORD_LOW with
printed drop delta old price minus today's price equal to 1. -/
theorem c3_snapshot_boundary (prev : Snapshot) (code : String) (L : Int) (e : SnapEntry)
    (hl : snapLookup prev code = some e) (hp : e.price = some L)
    (ha : e.all_time_low = some L) :
    classify prev code L = Category.UNCHANGED
    ∧ classify prev code (L - 1) = Category.RECORD_LOW
    ∧ drop_delta prev code (L - 1) = 1 := by
  have hop : old_price prev code = L := by simp [old_price, hl, hp]
  have hmin : min (L - 1) L = L - 1 := min_eq_left (by omega)
  have hatl : new_all_time_low prev code (L - 1) = L - 1 := by
    simp [new_all_time_low, prev_low, hl, ha, hmin]
  refine ⟨?_, ?_, ?_⟩
  · unfold classify
    rw [hop, if_neg (by omega), if_neg (by omega), if_neg (by simp [hl])]
  · unfold classify
    rw [hop, hatl, if_pos (by omega), if_pos (by omega)]
  · unfold drop_delta
    rw [hop]
    omega

/-- Witness for C3's amended statement at a concrete snapshot with stored
price and stored all-time-low both 290. -/
theorem c3_witness :
    classify [("x", ⟨some 290, none, some 290⟩)] "x" 290 = Category.UNCHANGED
    ∧ classify [("x", ⟨some 290, none, some 290⟩)] "x" (290 - 1) = Category.RECORD_LOW
    ∧ drop_delta [("x", ⟨some 290, none, some 290⟩)] "x" (290 - 1) = 1 :=
  c3_snapshot_boundary [("x", ⟨some 290, none, some 290⟩)] "x" 290
    ⟨some 290, none, some 290⟩ (by decide) (by decide) (by decide)

/-- Counterexample to C6: the effect trace of the persistence tail of run
is save-snapshot first, append-log second, so the log append does not come
first. -/
theorem c6_counterexample :
    (run_persist ⟨[], []⟩ [] "2026-02-16" "t" []).2
      = [StorageEffect.saveHistory, StorageEffect.appendLog]
    ∧ ¬ ((run_persist ⟨[], []⟩ [] "2026-02-16" "t" []).2.indexOf StorageEffect.appendLog
        < (run_persist ⟨[], []⟩ [] "2026-02-16" "t" []).2.indexOf
            StorageEffect.saveHistory) := by decide

/-- C6 amended: within a single run the Snapshot Store overwrite happens
first and the Log Store append after it; a crash between the two writes
leaves the snapshot already replaced while the day's log entry is not yet
written. -/
theorem c6_persist_order (s : StoreState) (new_hist : Snapshot) (now_date now_ts : String)
    (hotels : List Hotel) :
    ((run_persist s new_hist now_date now_ts hotels).2.indexOf StorageEffect.saveHistory
      < (run_persist s new_hist now_date now_ts hotels).2.indexOf StorageEffect.appendLog)
    ∧ (run_persist_mid s new_hist).history = new_hist
    ∧ (run_persist_mid s new_hist).logs = s.logs
    ∧ (run_persist s new_hist now_date now_ts hotels).1.logs
        = s.logs ++ [⟨some now_date, some now_ts, hotels⟩]
    ∧ (run_persist s new_hist now_date now_ts hotels).1.history = new_hist := by
  refine ⟨?_, rfl, rfl, rfl, rfl⟩
  show List.indexOf StorageEffect.saveHistory
      [StorageEffect.saveHistory, StorageEffect.appendLog]
    < List.indexOf StorageEffect.appendLog
      [StorageEffect.saveHistory, StorageEffect.appendLog]
  decide

end KoreaFHR
